import Mathlib

/-!
Verification development for the ConfigDB connector of sonic-swss-common
(src/common/configdb.cpp).

The backing key/hash store is modelled as an association list from flat string
keys to hashes, a hash being an association list from field names to values.
The collaborator operations consumed from the backing store (HGETALL, HMSET,
HDEL, DEL, KEYS, SCAN, GET, pub/sub) are modelled as pure functions on this
store; read commands have read-only types and write commands return the
updated store.  Operations of the connector that read the store are embedded
with explicit state threading, returning the result together with the store
after the call.

std::map iteration is sorted and duplicate-free; the embedding works on plain
association lists, so theorems quantifying over snapshots cover (a superset
of) the maps the C++ can pass, and concrete counterexample snapshots are
written in their sorted map order.
-/

set_option autoImplicit false

namespace ConfigDB

/-- A stored hash (and also a table entry): field name to value. -/
abbrev Hash := List (String × String)

/-- The backing store: flat key to stored hash. -/
abbrev Store := List (String × Hash)

/-- One table of a config snapshot: row key to entry. -/
abbrev Table := List (String × Hash)

/-- A config snapshot: table name to rows, as in
`map<string, map<string, map<string, string>>>`. -/
abbrev Snapshot := List (String × Table)

/-! ## String helpers (character-level renderings of std::string operations) -/

/-- `std::string::substr(0, n)` (count clamped to the length). -/
def strTake (s : String) (n : Nat) : String := ⟨s.toList.take n⟩

/-- `std::string::substr(n)`. -/
def strDrop (s : String) (n : Nat) : String := ⟨s.toList.drop n⟩

/-- `p` is an initial segment of `l`. -/
def listStartsWith : List Char → List Char → Bool
  | [], _ => true
  | _ :: _, [] => false
  | a :: as, b :: bs => a == b && listStartsWith as bs

/-- `p` is a prefix of `k` (used to model glob patterns of the shape `p ++ "*"`). -/
def strStartsWith (p k : String) : Bool := listStartsWith p.toList k.toList

/-- Modelled from the spec: `swss::to_upper` of converter.h (not under src/),
"table: identified by name, upper-cased for storage-key purposes" — upper-cases
each character. -/
def to_upper (s : String) : String := ⟨s.toList.map Char.toUpper⟩

/-- TABLE_NAME_SEPARATOR / KEY_SEPARATOR.  The constructor (configdb.cpp:13-14)
sets both to "|"; db_connect re-reads them from `get_db_separator(db_name)`
(collaborator code outside src/), which yields "|" for CONFIG_DB.  The claims
are settled at this separator. -/
def TABLE_NAME_SEPARATOR : String := "|"

/-- `key.find(TABLE_NAME_SEPARATOR)`: character index of the first separator
occurrence (the separator is the one-character string "|"). -/
def findSepIdx (k : String) : Option Nat := k.toList.findIdx? (· == '|')

/-- Modelled from the spec: the well-known sentinel key INIT_INDICATOR
(declared in configdb.h, which is not under src/) whose presence with a
non-empty value signals that initial population of the database is complete. -/
def INIT_INDICATOR : String := "CONFIG_DB_INITIALIZED"

/-! ## Store primitives (the backing-store collaborator) -/

/-- Association-list lookup (std::map::find / operator[] read). -/
def alookup {α : Type} (k : String) : List (String × α) → Option α
  | [] => none
  | p :: rest => if k = p.1 then some p.2 else alookup k rest

/-- HGETALL: the stored hash of `k`, empty when `k` is absent. -/
def hgetall (s : Store) (k : String) : Hash := (alookup k s).getD []

/-- DEL: remove the key. -/
def delKey (s : Store) (k : String) : Store := s.filter (fun p => p.1 != k)

/-- Store `k ↦ h`, replacing any previous binding. -/
def setKey (s : Store) (k : String) (h : Hash) : Store := (k, h) :: delKey s k

/-- HSET of one field: overwrite the field if present, else add it. -/
def hsetField (h : Hash) (f v : String) : Hash :=
  if h.any (fun p => p.1 == f) then h.map (fun p => if p.1 == f then (f, v) else p)
  else h ++ [(f, v)]

/-- The hash after HMSET-ing all fields of `data` into `h`. -/
def hmsetHash (h : Hash) (data : Hash) : Hash :=
  data.foldl (fun acc p => hsetField acc p.1 p.2) h

/-- HMSET: merge the given fields into the stored hash (the connector only ever
issues HMSET with a non-empty field map). -/
def hmsetKey (s : Store) (k : String) (data : Hash) : Store :=
  if data.isEmpty then s else setKey s k (hmsetHash (hgetall s k) data)

/-- HDEL of one field: Redis removes a key whose hash becomes empty. -/
def hdelKey (s : Store) (k f : String) : Store :=
  let h := (hgetall s k).filter (fun p => p.1 != f)
  if h.isEmpty then delKey s k else setKey s k h

/-- Modelled from the spec: the collaborator's
`enumerate-keys-matching(pattern) -> keys` (KEYS), for the two pattern shapes
the connector builds — `"*"` (prefix "") and `uppercase(table) + SEP + "*"`. -/
def keysPattern (s : Store) (pre : String) : List String :=
  (s.map Prod.fst).filter (fun k => strStartsWith pre k)

/-- `uppercase(table) + TABLE_NAME_SEPARATOR + key` (configdb.cpp:75 etc.). -/
def encodeKey (table key : String) : String :=
  to_upper table ++ TABLE_NAME_SEPARATOR ++ key

/-- The enumeration-pattern prefix `uppercase(table) + TABLE_NAME_SEPARATOR`. -/
def tablePatOf (table : String) : String := to_upper table ++ TABLE_NAME_SEPARATOR

/-! ## DirectAccessor (ConfigDBConnector) -/

/-- ConfigDBConnector::get_entry (configdb.cpp:124-129): HGETALL of the encoded
key; returns the entry together with the store after the call. -/
def get_entry (s : Store) (table key : String) : Hash × Store :=
  (hgetall s (encodeKey table key), s)

/-- ConfigDBConnector::set_entry (configdb.cpp:72-94), faithful to the code:
`bool found = data.find(k) == data.end();` is true exactly when the old field
is absent from `data`, and the `hdel` runs under `if (!found)`, i.e. exactly
when the old field IS present in `data`. -/
def set_entry (s : Store) (table key : String) (data : Hash) : Store :=
  let _hash := encodeKey table key
  if data.isEmpty then delKey s _hash
  else
    let pr := get_entry s table key
    let original := pr.1
    let s1 := hmsetKey pr.2 _hash data
    original.foldl (fun st kv =>
      let found : Bool := (alookup kv.1 data).isNone
      if !found then hdelKey st _hash kv.1 else st) s1

/-- ConfigDBConnector::mod_entry (configdb.cpp:103-115). -/
def mod_entry (s : Store) (table key : String) (data : Hash) : Store :=
  let _hash := encodeKey table key
  if data.isEmpty then delKey s _hash else hmsetKey s _hash data

/-- ConfigDBConnector::get_keys (configdb.cpp:138-162). -/
def get_keys (s : Store) (table : String) (split : Bool) : List String × Store :=
  let keys := keysPattern s (tablePatOf table)
  (keys.foldl (fun data key =>
      if split then
        let row := match findSepIdx key with
          | none => ""
          | some pos => strDrop key (pos + 1)
        data ++ [row]
      else data ++ [key]) [], s)

/-- `m[k] = v` on a std::map rendered as an association list (the embedding
appends new keys instead of keeping the list sorted; no claim depends on the
iteration order of a returned snapshot). -/
def setA {α : Type} (m : List (String × α)) (k : String) (v : α) : List (String × α) :=
  if m.any (fun p => p.1 == k) then m.map (fun p => if p.1 == k then (k, v) else p)
  else m ++ [(k, v)]

/-- ConfigDBConnector::get_table (configdb.cpp:172-190). -/
def get_table (s : Store) (table : String) : Table × Store :=
  let keys := keysPattern s (tablePatOf table)
  (keys.foldl (fun data key =>
      let entry := hgetall s key
      let row := match findSepIdx key with
        | none => ""
        | some pos => strDrop key (pos + 1)
      setA data row entry) [], s)

/-- ConfigDBConnector::delete_table (configdb.cpp:195-204). -/
def delete_table (s : Store) (table : String) : Store :=
  (keysPattern s (tablePatOf table)).foldl delKey s

/-- ConfigDBConnector::mod_config (configdb.cpp:215-233). -/
def mod_config (s : Store) (data : Snapshot) : Store :=
  data.foldl (fun st td =>
    if td.2.isEmpty then delete_table st td.1
    else td.2.foldl (fun st2 rp => mod_entry st2 td.1 rp.1 rp.2) st) s

/-- `data[table_name][row] = entry` on the nested snapshot map. -/
def setA2 (m : Snapshot) (t r : String) (e : Hash) : Snapshot :=
  let inner := (alookup t m).getD []
  setA m t (setA inner r e)

/-- The body of the key loop of ConfigDBConnector::get_config
(configdb.cpp:248-263): skip keys without a separator, split at the first
separator, read the hash, and file non-empty entries only. -/
def get_config_step (s : Store) (data : Snapshot) (key : String) : Snapshot :=
  match findSepIdx key with
  | none => data
  | some pos =>
    let table_name := strTake key pos
    let row := strDrop key (pos + 1)
    let entry := hgetall s key
    if entry.isEmpty then data else setA2 data table_name row entry

/-- ConfigDBConnector::get_config (configdb.cpp:243-265). -/
def get_config (s : Store) : Snapshot × Store :=
  ((keysPattern s "").foldl (get_config_step s) [], s)

/-! ## BatchEngine (ConfigDBPipeConnector) -/

/-- Modelled from the spec: REDIS_SCAN_BATCH_SIZE (declared in configdb.h,
which is not under src/) — the spec requires only a bounded positive page
size ("bounded batch of keys"); the exact value is immaterial to the claims. -/
def REDIS_SCAN_BATCH_SIZE : Nat := 128

/-- A command enqueued into the RedisTransactioner pipe, executed at exec(). -/
inductive RCmd where
  | del (key : String)
  | hmset (key : String) (data : Hash)
  deriving DecidableEq

/-- Execution of one enqueued command against the store. -/
def execCmd (s : Store) : RCmd → Store
  | .del k => delKey s k
  | .hmset k d => hmsetKey s k d

/-- pipe.exec(): execute the enqueued commands in FIFO order. -/
def execCmds (s : Store) (cmds : List RCmd) : Store := cmds.foldl execCmd s

/-- Modelled from the spec: the collaborator's paginated enumeration
`enumerateKeysMatching(pattern, cursor, pageSize) -> (nextCursor, keys)`
(client.scan): one page of the matching keys starting at `cursor`; the
returned cursor is 0 exactly when the pass is complete. -/
def scanPage (ks : List String) (cursor : Nat) : Nat × List String :=
  let page := (ks.drop cursor).take REDIS_SCAN_BATCH_SIZE
  (if cursor + REDIS_SCAN_BATCH_SIZE < ks.length then cursor + REDIS_SCAN_BATCH_SIZE else 0,
   page)

/-- ConfigDBPipeConnector::_delete_entries (configdb.cpp:288-301): scan one
page and enqueue a DEL per returned key; returns the next cursor and the
enqueued commands. -/
def _delete_entries (s : Store) (pre : String) (cursor : Nat) : Nat × List RCmd :=
  let rc := scanPage (keysPattern s pre) cursor
  (rc.1, rc.2.map RCmd.del)

/-- The scan loop of ConfigDBPipeConnector::_delete_table (configdb.cpp:309-317)
with an explicit fuel bound; `_delete_table` supplies fuel sufficient for a
full pass (the loop in the source terminates because the cursor strictly
advances by the positive batch size until the scan reports 0). -/
def _delete_table_loop (s : Store) (pre : String) : Nat → Nat → List RCmd
  | 0, _ => []
  | fuel + 1, cursor =>
    let rc := _delete_entries s pre cursor
    if rc.1 == 0 then rc.2 else rc.2 ++ _delete_table_loop s pre fuel rc.1

/-- ConfigDBPipeConnector::_delete_table (configdb.cpp:309-317): the DELs it
enqueues into the open transaction (the caller executes them at exec()). -/
def _delete_table (s : Store) (table : String) : List RCmd :=
  _delete_table_loop s (tablePatOf table) (s.length + 1) 0

/-- ConfigDBPipeConnector::_mod_entry (configdb.cpp:328-343): the command it
enqueues — DEL for empty data, HMSET otherwise. -/
def _mod_entry (table key : String) (data : Hash) : RCmd :=
  if data.isEmpty then RCmd.del (encodeKey table key)
  else RCmd.hmset (encodeKey table key) data

namespace Pipe

/-- ConfigDBPipeConnector::mod_config (configdb.cpp:353-374): one transaction;
per table either the _delete_table DELs or one _mod_entry command per row are
enqueued.  The scans inside _delete_table read the live store, which is still
unchanged while commands are only being enqueued, hence they scan the initial
store `s`; pipe.exec() then executes every enqueued command in order. -/
def mod_config (s : Store) (data : Snapshot) : Store :=
  let cmds := data.foldl (fun cs td =>
    if td.2.isEmpty then cs ++ _delete_table s td.1
    else td.2.foldl (fun cs2 rp => cs2 ++ [_mod_entry td.1 rp.1 rp.2]) cs) []
  execCmds s cmds

end Pipe

/-- `key.substr(0, pos - 1)` where `pos` is a size_t (configdb.cpp:415): for
`pos = 0` the count wraps around to 2^64-1 and substr clamps it to the whole
key. -/
def pipeTableName (key : String) (pos : Nat) : String :=
  if pos == 0 then key else strTake key (pos - 1)

/-- The side effect that `auto dataentry = data[table_name][row];` has on
`data` (configdb.cpp:425): operator[] default-constructs the nested entries
when absent and leaves them unchanged when present. -/
def ensureA2 (m : Snapshot) (t r : String) : Snapshot :=
  let inner := (alookup t m).getD []
  let entry := (alookup r inner).getD []
  setA m t (setA inner r entry)

/-- The reply-draining loop of _get_config (configdb.cpp:403-432) over one
page of scanned keys, threading the FIFO reply queue.  Faithful to the code:
the sentinel key is skipped; a key without a separator is skipped WITHOUT
dequeuing its reply (its HGETALL was enqueued, so the queue desynchronizes);
a NULL dequeued reply means `continue`; and the fields of a dequeued reply
are emplaced into `dataentry`, a by-value copy of `data[table_name][row]`
that is then discarded, so only the default-construction side effect of
`operator[]` reaches `data`. -/
def dequeueLoop : List String → List Hash → Snapshot → Snapshot
  | [], _, data => data
  | key :: rest, q, data =>
    if key == INIT_INDICATOR then dequeueLoop rest q data
    else
      match findSepIdx key with
      | none => dequeueLoop rest q data
      | some pos =>
        let table_name := pipeTableName key pos
        let row := strDrop key (pos + 1)
        match q with
        | [] => dequeueLoop rest [] data
        | r :: q' =>
          let data' := ensureA2 data table_name row
          let entry0 := (alookup row ((alookup table_name data').getD [])).getD []
          let _dataentry := r.foldl (fun de p =>
            if de.any (fun fp => fp.1 == p.1) then de else de ++ [p]) entry0
          dequeueLoop rest q' data'

/-- ConfigDBPipeConnector::_get_config (configdb.cpp:385-434): scan one page
of keys, enqueue one HGETALL per non-sentinel key, exec (the replies arrive
in enqueue order), then drain the replies with `dequeueLoop`; returns the
next cursor, the merged snapshot, and the store after the call. -/
def _get_config (s : Store) (data : Snapshot) (cursor : Nat) : Nat × Snapshot × Store :=
  let rc := scanPage (keysPattern s "") cursor
  let replies := (rc.2.filter (fun k => k != INIT_INDICATOR)).map (fun k => hgetall s k)
  (rc.1, dequeueLoop rc.2 replies data, s)

/-- The cursor loop of ConfigDBPipeConnector::get_config (configdb.cpp:436-449)
with an explicit fuel bound; `Pipe.get_config` supplies fuel sufficient for a
full pass. -/
def get_config_loop : Nat → Nat → Snapshot → Store → Snapshot × Store
  | 0, _, data, s => (data, s)
  | fuel + 1, cursor, data, s =>
    let rc := _get_config s data cursor
    if rc.1 == 0 then (rc.2.1, rc.2.2)
    else get_config_loop fuel rc.1 rc.2.1 rc.2.2

namespace Pipe

/-- ConfigDBPipeConnector::get_config (configdb.cpp:436-449). -/
def get_config (s : Store) : Snapshot × Store := get_config_loop (s.length + 1) 0 [] s

end Pipe

/-! ## Claims C1, C2 — set_entry / get_entry round trip and pruning -/

/-- Claim C1 (evaluation of the code at a failing input): with the entry
`T|r ↦ {a:1}` already stored, `set_entry T r {a:2}` followed by
`get_entry T r` returns the empty map, not `{a:2}`: the inverted `found` test
of configdb.cpp:87-88 deletes exactly the fields that are present in `data`
(here `a`, just written by the hmset), so the round trip fails. -/
theorem c1_set_get_roundtrip_fails_on_code :
    (get_entry (set_entry [("T|r", [("a", "1")])] "T" "r" [("a", "2")]) "T" "r").1 = [] ∧
    ([] : Hash) ≠ [("a", "2")] := by
  constructor
  · rfl
  · decide

/-- Claim C2 (evaluation of the code at a failing input): starting from an
empty store, `set_entry T r {a:1}` then `set_entry T r {b:2}` leaves the stale
field `a` (value "1") in the stored entry: the inverted `found` test of
configdb.cpp:87-88 never deletes fields that are absent from the new data, so
the pruning the claim (and the function's own comment) describes does not
happen. -/
theorem c2_set_entry_pruning_fails_on_code :
    List.lookup "a"
      (get_entry (set_entry (set_entry [] "T" "r" [("a", "1")]) "T" "r" [("b", "2")])
        "T" "r").1 = some "1" := by
  decide

/-! ## Claims C3, C4, C5 — evaluations of the pipelined get_config at failing
inputs -/

/-- Claim C3 (evaluation of the code at a failing input): on the unmutated
store holding the single key `AB|r ↦ {f:v}`, the direct get_config returns
the snapshot `{AB: {r: {f:v}}}` while the pipelined get_config returns
`{A: {r: {}}}`: the table name is truncated by `substr(0, pos - 1)`
(configdb.cpp:415) and the reply's fields are emplaced into a by-value copy
of the entry (configdb.cpp:425), so the two variants do not agree. -/
theorem c3_pipe_get_config_diverges_from_direct :
    (get_config [("AB|r", [("f", "v")])]).1 = [("AB", [("r", [("f", "v")])])] ∧
    (Pipe.get_config [("AB|r", [("f", "v")])]).1 = [("A", [("r", [])])] ∧
    ([("AB", [("r", [("f", "v")])])] : Snapshot) ≠ [("A", [("r", [])])] := by
  refine ⟨rfl, rfl, by decide⟩

/-- Claim C4 (evaluation of the code at a failing input): for the flat key
`XY|k1` the first separator is at index 2 and the substring strictly before
it is `XY`, but the pipelined get_config stores the row under table `X`
(`substr(0, pos - 1)`, configdb.cpp:415) and its snapshot has no table `XY`;
the claim that BOTH get_config variants decode the table as everything
strictly before the first separator is false for the pipelined one. -/
theorem c4_pipe_decode_truncates_table_name :
    findSepIdx "XY|k1" = some 2 ∧ strTake "XY|k1" 2 = "XY" ∧
    (Pipe.get_config [("XY|k1", [("g", "w")])]).1 = [("X", [("k1", [])])] ∧
    List.lookup "XY" (Pipe.get_config [("XY|k1", [("g", "w")])]).1 = none := by
  refine ⟨rfl, rfl, rfl, rfl⟩

/-- Claim C5 (evaluation of the code at a failing input): the stored hash of
`CD|r2` is non-empty, yet the pipelined get_config maps table `C`, row `r2`
to the EMPTY entry: `data[table_name][row]` default-constructs the entry and
the reply's fields are emplaced into a discarded by-value copy
(configdb.cpp:425-431), so the snapshot contains an empty entry, which the
claim rules out. -/
theorem c5_pipe_get_config_keeps_empty_entries :
    hgetall [("CD|r2", [("x", "y")])] "CD|r2" = [("x", "y")] ∧
    List.lookup "r2"
      ((List.lookup "C" (Pipe.get_config [("CD|r2", [("x", "y")])]).1).getD [])
      = some [] := by
  refine ⟨rfl, rfl⟩

/-! ## Claim C6 — counterexample to pipe/direct mod_config equivalence -/

/-- Claim C6 counterexample: for the snapshot `{T: {r: {f:v}}, t: {}}`
(iterated in std::map order, "T" before "t") on the empty store, the direct
mod_config first writes `T|r` and then delete_table("t") enumerates the live
store (pattern `T|*`, since to_upper("t") = "T") and deletes the key just
written, ending with an empty store; the pipelined mod_config scans for keys
to delete while the write is still only enqueued, finds nothing, and ends
with `T|r ↦ {f:v}`.  The two final states differ, so the claim, which
asserts equivalence for every snapshot and store, is false. -/
theorem c6_counterexample_pipe_mod_config_differs :
    hgetall (mod_config [] [("T", [("r", [("f", "v")])]), ("t", [])]) "T|r" = [] ∧
    hgetall (Pipe.mod_config [] [("T", [("r", [("f", "v")])]), ("t", [])]) "T|r"
      = [("f", "v")] := by
  refine ⟨rfl, rfl⟩

/-! ## Claim C7 — counterexample: the sentinel string can appear as a table -/

/-- Claim C7 counterexample: for a store holding the (decodable) flat key
`CONFIG_DB_INITIALIZED|x`, the direct get_config snapshot contains the
sentinel string INIT_INDICATOR as a table name: get_config only skips keys
without a separator (configdb.cpp:250-254) and never compares against
INIT_INDICATOR, so the claim as stated ("never contains INIT_INDICATOR as a
table or row, for every store state") is false. -/
theorem c7_counterexample_sentinel_as_table :
    ((get_config [(INIT_INDICATOR ++ "|x", [("f", "v")])]).1).map Prod.fst
      = [INIT_INDICATOR] := by
  rfl

/-! ## Claim C9 — counterexample: other tables named in the snapshot change -/

/-- Claim C9 counterexample: the snapshot `{A: {}, B: {r: {f:v}}}` maps table
`A` to an empty row-map, yet mod_config changes the key `B|r` — a key that
belongs to another table (it does not carry the `A|` prefix) — from absent to
`{f:v}`; so the claim, which for EVERY such snapshot promises every key of
any other table unchanged, is false. -/
theorem c9_counterexample_other_named_table_changes :
    strStartsWith (tablePatOf "A") "B|r" = false ∧
    hgetall ([] : Store) "B|r" = [] ∧
    hgetall (mod_config [] [("A", []), ("B", [("r", [("f", "v")])])]) "B|r"
      = [("f", "v")] := by
  refine ⟨rfl, rfl, rfl⟩

/-! ## Pointwise lemmas about the store primitives -/

theorem delKey_cons (a : String) (b : Hash) (rest : Store) (k : String) :
    delKey ((a, b) :: rest) k
      = if a = k then delKey rest k else (a, b) :: delKey rest k := by
  rw [delKey, delKey, List.filter_cons]
  by_cases hp : a = k <;> simp [hp]

theorem alookup_delKey (s : Store) (k k' : String) :
    alookup k' (delKey s k) = if k' = k then none else alookup k' s := by
  induction s with
  | nil => simp [delKey, alookup]
  | cons p rest ih =>
    obtain ⟨a, b⟩ := p
    rw [delKey_cons]
    by_cases hp : a = k <;> by_cases hk : k' = k <;> by_cases hq : k' = a <;>
      simp_all [alookup]

theorem alookup_setKey (s : Store) (k : String) (h : Hash) (k' : String) :
    alookup k' (setKey s k h) = if k' = k then some h else alookup k' s := by
  rw [setKey]
  by_cases hk : k' = k <;> simp [alookup, hk, alookup_delKey]

theorem hgetall_delKey (s : Store) (k k' : String) :
    hgetall (delKey s k) k' = if k' = k then [] else hgetall s k' := by
  rw [hgetall, alookup_delKey]
  by_cases hk : k' = k <;> simp [hk, hgetall]

theorem hgetall_setKey (s : Store) (k : String) (h : Hash) (k' : String) :
    hgetall (setKey s k h) k' = if k' = k then h else hgetall s k' := by
  rw [hgetall, alookup_setKey]
  by_cases hk : k' = k <;> simp [hk, hgetall]

theorem hgetall_hmsetKey (s : Store) (k : String) (data : Hash) (k' : String)
    (hd : data.isEmpty = false) :
    hgetall (hmsetKey s k data) k'
      = if k' = k then hmsetHash (hgetall s k) data else hgetall s k' := by
  rw [hmsetKey, hd]
  simp only [Bool.false_eq_true, if_false]
  exact hgetall_setKey _ _ _ _

theorem hgetall_eq_nil_of_not_mem (s : Store) (k : String)
    (h : k ∉ s.map Prod.fst) : hgetall s k = [] := by
  induction s with
  | nil => rfl
  | cons p rest ih =>
    obtain ⟨a, b⟩ := p
    simp only [List.map_cons, List.mem_cons, not_or] at h
    rw [hgetall, alookup]
    have hne : ¬ k = a := h.1
    simp only [hne, if_false]
    exact ih h.2

theorem hgetall_foldl_delKey (L : List String) (s : Store) (k : String) :
    hgetall (L.foldl delKey s) k = if k ∈ L then [] else hgetall s k := by
  induction L generalizing s with
  | nil => simp
  | cons l L ih =>
    rw [List.foldl_cons, ih]
    by_cases hL : k ∈ L
    · simp [hL]
    · rw [hgetall_delKey]
      by_cases hl : k = l
      · simp [hl, hL]
      · simp [hl, hL]

theorem mem_keysPattern (s : Store) (pre k : String) :
    k ∈ keysPattern s pre ↔ k ∈ s.map Prod.fst ∧ strStartsWith pre k = true := by
  simp [keysPattern, List.mem_filter]

/-- delete_table, pointwise: every key matching the table's pattern reads
back empty afterwards, every other key is untouched. -/
theorem hgetall_delete_table (s : Store) (table k : String) :
    hgetall (delete_table s table)
      k = if strStartsWith (tablePatOf table) k then [] else hgetall s k := by
  rw [delete_table, hgetall_foldl_delKey]
  by_cases hmem : k ∈ keysPattern s (tablePatOf table)
  · have := (mem_keysPattern s (tablePatOf table) k).1 hmem
    simp [hmem, this.2]
  · simp only [hmem, if_false]
    by_cases hpre : strStartsWith (tablePatOf table) k = true
    · have hnot : k ∉ s.map Prod.fst := fun hmem2 =>
        hmem ((mem_keysPattern s (tablePatOf table) k).2 ⟨hmem2, hpre⟩)
      simp [hpre, hgetall_eq_nil_of_not_mem s k hnot]
    · simp only [Bool.not_eq_true] at hpre
      simp [hpre]

/-! ## Claim C9 (amended) — mod_config on the singleton snapshot \x7bT: \x7b\x7d\x7d -/

/-- Claim C9 as amended: for the singleton snapshot mapping table T to an
empty row-map, mod_config deletes every flat key carrying the prefix
uppercase(T) + separator and leaves every other key unchanged. -/
theorem c9_amended_mod_config_singleton_delete (s : Store) (table k : String) :
    (strStartsWith (tablePatOf table) k = true →
      hgetall (mod_config s [(table, [])]) k = []) ∧
    (strStartsWith (tablePatOf table) k = false →
      hgetall (mod_config s [(table, [])]) k = hgetall s k) := by
  have hmc : mod_config s [(table, [])] = delete_table s table := rfl
  rw [hmc, hgetall_delete_table]
  constructor
  · intro h; simp [h]
  · intro h; simp [h]

/-- Witness for the amended claim C9 at concrete inputs: deleting table "A"
from a two-table store empties the key `A|x` and leaves `B|y` intact. -/
theorem c9_amended_witness :
    (strStartsWith (tablePatOf "A") "A|x" = true ∧
      hgetall (mod_config [("A|x", [("g", "w")]), ("B|y", [("h", "u")])]
        [("A", [])]) "A|x" = []) ∧
    (strStartsWith (tablePatOf "A") "B|y" = false ∧
      hgetall (mod_config [("A|x", [("g", "w")]), ("B|y", [("h", "u")])]
          [("A", [])]) "B|y"
        = hgetall [("A|x", [("g", "w")]), ("B|y", [("h", "u")])] "B|y") :=
  ⟨⟨by decide,
    (c9_amended_mod_config_singleton_delete
      [("A|x", [("g", "w")]), ("B|y", [("h", "u")])] "A" "A|x").1 (by decide)⟩,
   ⟨by decide,
    (c9_amended_mod_config_singleton_delete
      [("A|x", [("g", "w")]), ("B|y", [("h", "u")])] "A" "B|y").2 (by decide)⟩⟩

/-! ## Characterizing the pipelined get_config (for claim C7) -/

theorem map_fst_delKey (s : Store) (k : String) :
    (delKey s k).map Prod.fst = (s.map Prod.fst).filter (fun x => x != k) := by
  induction s with
  | nil => rfl
  | cons p rest ih =>
    obtain ⟨a, b⟩ := p
    rw [delKey_cons]
    by_cases hp : a = k <;> simp [hp, ih, List.filter_cons]

theorem keysPattern_all (s : Store) : keysPattern s "" = s.map Prod.fst := by
  rw [keysPattern]
  have h : (fun k => strStartsWith "" k) = fun _ : String => true := by
    funext k; rfl
  rw [h, List.filter_true]

theorem findSepIdx_INIT : findSepIdx INIT_INDICATOR = none := by rfl

theorem get_config_step_delKey (s : Store) (k0 : String) (data : Snapshot) (key : String)
    (h : ¬ key = k0) :
    get_config_step (delKey s k0) data key = get_config_step s data key := by
  unfold get_config_step
  cases hf : findSepIdx key with
  | none => rfl
  | some pos => simp [hgetall_delKey, h]

theorem foldl_get_config_step_filter (s : Store) (keys : List String) :
    ∀ data : Snapshot,
      (keys.filter (fun k => k != INIT_INDICATOR)).foldl
          (get_config_step (delKey s INIT_INDICATOR)) data
        = keys.foldl (get_config_step s) data := by
  induction keys with
  | nil => intro data; rfl
  | cons key rest ih =>
    intro data
    rw [List.filter_cons]
    by_cases hk : key = INIT_INDICATOR
    · have hb : (key != INIT_INDICATOR) = false := by simp [hk]
      rw [hb]
      simp only [Bool.false_eq_true, if_false, List.foldl_cons]
      rw [ih]
      have hstep : get_config_step s data key = data := by
        unfold get_config_step
        rw [hk, findSepIdx_INIT]
      rw [hstep]
    · have hb : (key != INIT_INDICATOR) = true := by simp [hk]
      rw [hb]
      simp only [if_true, List.foldl_cons]
      rw [get_config_step_delKey s INIT_INDICATOR data key hk]
      exact ih _

theorem get_config_delKey_INIT (s : Store) :
    (get_config (delKey s INIT_INDICATOR)).1 = (get_config s).1 := by
  have h1 : (get_config (delKey s INIT_INDICATOR)).1
      = (keysPattern (delKey s INIT_INDICATOR) "").foldl
          (get_config_step (delKey s INIT_INDICATOR)) [] := rfl
  have h2 : (get_config s).1 = (keysPattern s "").foldl (get_config_step s) [] := rfl
  rw [h1, h2, keysPattern_all, keysPattern_all, map_fst_delKey]
  exact foldl_get_config_step_filter s (s.map Prod.fst) []

/-- The per-key snapshot effect of the pipelined _get_config (derived
characterization: one HGETALL reply is enqueued for every non-sentinel key of
a page and every processed key dequeues at most one reply, so the queue never
runs dry and the effect of a page is this fold over its keys). -/
def pipeKeyStep (data : Snapshot) (key : String) : Snapshot :=
  if key == INIT_INDICATOR then data
  else
    match findSepIdx key with
    | none => data
    | some pos => ensureA2 data (pipeTableName key pos) (strDrop key (pos + 1))

theorem dequeueLoop_cons (key : String) (rest : List String) (q : List Hash)
    (data : Snapshot) :
    dequeueLoop (key :: rest) q data =
      if key == INIT_INDICATOR then dequeueLoop rest q data
      else
        match findSepIdx key with
        | none => dequeueLoop rest q data
        | some pos =>
          match q with
          | [] => dequeueLoop rest [] data
          | _ :: q' =>
            dequeueLoop rest q'
              (ensureA2 data (pipeTableName key pos) (strDrop key (pos + 1))) := rfl

theorem dequeueLoop_eq_fold (keys : List String) :
    ∀ (q : List Hash) (data : Snapshot),
      keys.countP (fun k => (k != INIT_INDICATOR) && (findSepIdx k).isSome) ≤ q.length →
      dequeueLoop keys q data = keys.foldl pipeKeyStep data := by
  induction keys with
  | nil => intro q data _; rfl
  | cons key rest ih =>
    intro q data h
    rw [List.countP_cons] at h
    by_cases hk : key = INIT_INDICATOR
    · have hb : (key == INIT_INDICATOR) = true := by simp [hk]
      have hp : ((key != INIT_INDICATOR) && (findSepIdx key).isSome) = false := by
        simp [hk]
      rw [dequeueLoop_cons, if_pos hb, List.foldl_cons]
      have hstep : pipeKeyStep data key = data := by rw [pipeKeyStep, if_pos hb]
      rw [hstep]
      rw [hp, if_neg (by decide)] at h
      exact ih q data (by omega)
    · have hb : (key == INIT_INDICATOR) = false := by simp [hk]
      have hbn : ¬ ((key == INIT_INDICATOR) = true) := by simp [hb]
      rw [dequeueLoop_cons, if_neg hbn, List.foldl_cons]
      cases hf : findSepIdx key with
      | none =>
        have hp : ((key != INIT_INDICATOR) && (findSepIdx key).isSome) = false := by
          simp [hf]
        rw [hp, if_neg (by decide)] at h
        have hstep : pipeKeyStep data key = data := by
          simp [pipeKeyStep, hb, hf]
        rw [hstep]
        exact ih q data (by omega)
      | some pos =>
        have hp : ((key != INIT_INDICATOR) && (findSepIdx key).isSome) = true := by
          simp [hk, hf]
        rw [hp, if_pos rfl] at h
        have hstep : pipeKeyStep data key
            = ensureA2 data (pipeTableName key pos) (strDrop key (pos + 1)) := by
          simp [pipeKeyStep, hb, hf]
        rw [hstep]
        cases q with
        | nil =>
          rw [List.length_nil] at h
          omega
        | cons r q' =>
          simp only [List.length_cons] at h
          exact ih q' _ (by omega)

theorem _get_config_snapshot (s : Store) (data : Snapshot) (cursor : Nat) :
    (_get_config s data cursor).2.1
      = (((keysPattern s "").drop cursor).take REDIS_SCAN_BATCH_SIZE).foldl
          pipeKeyStep data := by
  have hshape : (_get_config s data cursor).2.1
      = dequeueLoop (((keysPattern s "").drop cursor).take REDIS_SCAN_BATCH_SIZE)
          (((((keysPattern s "").drop cursor).take REDIS_SCAN_BATCH_SIZE).filter
              (fun k => k != INIT_INDICATOR)).map (fun k => hgetall s k)) data := rfl
  rw [hshape]
  apply dequeueLoop_eq_fold
  rw [List.length_map, ← List.countP_eq_length_filter]
  exact List.countP_mono_left
    (fun x _ hx => (Bool.and_eq_true_iff.mp hx).1)

theorem _get_config_fst (s : Store) (data : Snapshot) (cursor : Nat) :
    (_get_config s data cursor).1
      = if cursor + REDIS_SCAN_BATCH_SIZE < (keysPattern s "").length
        then cursor + REDIS_SCAN_BATCH_SIZE else 0 := rfl

theorem _get_config_store2 (s : Store) (data : Snapshot) (cursor : Nat) :
    (_get_config s data cursor).2.2 = s := rfl

theorem get_config_loop_pass (s : Store) :
    ∀ (fuel cursor : Nat) (data : Snapshot),
      (keysPattern s "").length - cursor < fuel →
      (get_config_loop fuel cursor data s).1
        = ((keysPattern s "").drop cursor).foldl pipeKeyStep data := by
  intro fuel
  induction fuel with
  | zero => intro cursor data h; exact absurd h (Nat.not_lt_zero _)
  | succ n ih =>
    intro cursor data h
    simp only [get_config_loop]
    by_cases hcur : cursor + REDIS_SCAN_BATCH_SIZE < (keysPattern s "").length
    · have h1 : (_get_config s data cursor).1 = cursor + REDIS_SCAN_BATCH_SIZE := by
        rw [_get_config_fst, if_pos hcur]
      have hne : ¬ (((_get_config s data cursor).1 == 0) = true) := by
        rw [h1]
        simp [REDIS_SCAN_BATCH_SIZE]
      rw [if_neg hne, _get_config_store2]
      rw [ih (_get_config s data cursor).1 (_get_config s data cursor).2.1
        (by rw [h1]; simp only [REDIS_SCAN_BATCH_SIZE] at *; omega)]
      rw [_get_config_snapshot, h1]
      rw [← List.foldl_append]
      have hsplit : (((keysPattern s "").drop cursor).take REDIS_SCAN_BATCH_SIZE)
          ++ ((keysPattern s "").drop (cursor + REDIS_SCAN_BATCH_SIZE))
          = (keysPattern s "").drop cursor := by
        rw [← List.drop_drop]
        exact List.take_append_drop _ _
      rw [hsplit]
    · have h1 : (_get_config s data cursor).1 = 0 := by
        rw [_get_config_fst, if_neg hcur]
      have heq : (((_get_config s data cursor).1 == 0) = true) := by
        rw [h1]; rfl
      rw [if_pos heq, _get_config_snapshot]
      have hdrop : ((keysPattern s "").drop cursor).take REDIS_SCAN_BATCH_SIZE
          = (keysPattern s "").drop cursor := by
        apply List.take_of_length_le
        rw [List.length_drop]
        omega
      rw [hdrop]

theorem pipe_get_config_fold (s : Store) :
    (Pipe.get_config s).1 = (keysPattern s "").foldl pipeKeyStep [] := by
  have hle : (keysPattern s "").length ≤ s.length := by
    rw [keysPattern]
    calc ((s.map Prod.fst).filter (fun k => strStartsWith "" k)).length
        ≤ (s.map Prod.fst).length := List.length_filter_le _ _
      _ = s.length := List.length_map _ _
  have := get_config_loop_pass s (s.length + 1) 0 [] (by omega)
  rw [Pipe.get_config, this, List.drop_zero]

theorem foldl_pipeKeyStep_filter (keys : List String) :
    ∀ data : Snapshot,
      (keys.filter (fun k => k != INIT_INDICATOR)).foldl pipeKeyStep data
        = keys.foldl pipeKeyStep data := by
  induction keys with
  | nil => intro data; rfl
  | cons key rest ih =>
    intro data
    rw [List.filter_cons]
    by_cases hk : key = INIT_INDICATOR
    · have hb : (key != INIT_INDICATOR) = false := by simp [hk]
      rw [hb]
      simp only [Bool.false_eq_true, if_false, List.foldl_cons]
      have hstep : pipeKeyStep data key = data := by
        rw [pipeKeyStep, if_pos (by simp [hk])]
      rw [ih, hstep]
    · have hb : (key != INIT_INDICATOR) = true := by simp [hk]
      rw [hb]
      simp only [if_true, List.foldl_cons]
      exact ih _

/-- Claim C7 as amended: the sentinel flat key itself contributes nothing to
either get_config variant — the snapshot of any store equals the snapshot of
the same store with the flat key INIT_INDICATOR removed.  (The direct variant
skips the sentinel because it contains no separator; the pipelined variant
skips it by name, consistently in both its enqueue and its dequeue loop.) -/
theorem c7_amended_sentinel_key_contributes_nothing (s : Store) :
    (get_config (delKey s INIT_INDICATOR)).1 = (get_config s).1 ∧
    (Pipe.get_config (delKey s INIT_INDICATOR)).1 = (Pipe.get_config s).1 := by
  constructor
  · exact get_config_delKey_INIT s
  · rw [pipe_get_config_fold, pipe_get_config_fold, keysPattern_all, keysPattern_all,
      map_fst_delKey]
    exact foldl_pipeKeyStep_filter (s.map Prod.fst) []

/-! ## Commands and their execution (for claim C6) -/

/-- The flat key a pipelined command operates on. -/
def cmdKey : RCmd → String
  | .del k => k
  | .hmset k _ => k

theorem hgetall_execCmd_ne (st : Store) (c : RCmd) (k : String) (h : ¬ cmdKey c = k) :
    hgetall (execCmd st c) k = hgetall st k := by
  cases c with
  | del key =>
    rw [execCmd, hgetall_delKey, if_neg (fun hc => h hc.symm)]
  | hmset key d =>
    rw [execCmd]
    by_cases hd : d.isEmpty = true
    · rw [hmsetKey, if_pos hd]
    · have hd' : d.isEmpty = false := by simpa using hd
      rw [hgetall_hmsetKey st key d k hd', if_neg (fun hc => h hc.symm)]

theorem hgetall_execCmds_frame (cmds : List RCmd) :
    ∀ (st : Store) (k : String), (∀ c ∈ cmds, ¬ cmdKey c = k) →
      hgetall (execCmds st cmds) k = hgetall st k := by
  induction cmds with
  | nil => intro st k _; rfl
  | cons c cmds ih =>
    intro st k h
    rw [execCmds, List.foldl_cons]
    have hrest : cmds.foldl execCmd (execCmd st c) = execCmds (execCmd st c) cmds := rfl
    rw [hrest, ih _ _ (fun c' hc' => h c' (List.mem_cons_of_mem _ hc')),
      hgetall_execCmd_ne st c k (h c (List.mem_cons_self _ _))]

theorem execCmds_append (st : Store) (c1 c2 : List RCmd) :
    execCmds st (c1 ++ c2) = execCmds (execCmds st c1) c2 := by
  rw [execCmds, execCmds, execCmds, List.foldl_append]

theorem hgetall_execCmds_delList (L : List String) (st : Store) (k : String) :
    hgetall (execCmds st (L.map RCmd.del)) k = if k ∈ L then [] else hgetall st k := by
  have h : execCmds st (L.map RCmd.del) = L.foldl delKey st := by
    rw [execCmds, List.foldl_map]
    rfl
  rw [h, hgetall_foldl_delKey]

theorem execCmd_mod_entry (st : Store) (t r : String) (fvs : Hash) :
    execCmd st (_mod_entry t r fvs) = mod_entry st t r fvs := by
  simp only [_mod_entry, mod_entry]
  by_cases he : fvs.isEmpty = true
  · rw [if_pos he, if_pos he, execCmd]
  · rw [if_neg he, if_neg he, execCmd]

/-! ## The scan loop of the pipelined _delete_table (for claim C6) -/

theorem _delete_entries_fst (s : Store) (pre : String) (cursor : Nat) :
    (_delete_entries s pre cursor).1
      = if cursor + REDIS_SCAN_BATCH_SIZE < (keysPattern s pre).length
        then cursor + REDIS_SCAN_BATCH_SIZE else 0 := rfl

theorem _delete_entries_snd (s : Store) (pre : String) (cursor : Nat) :
    (_delete_entries s pre cursor).2
      = (((keysPattern s pre).drop cursor).take REDIS_SCAN_BATCH_SIZE).map RCmd.del := rfl

theorem _delete_table_loop_pass (s : Store) (pre : String) :
    ∀ (fuel cursor : Nat),
      (keysPattern s pre).length - cursor < fuel →
      _delete_table_loop s pre fuel cursor
        = ((keysPattern s pre).drop cursor).map RCmd.del := by
  intro fuel
  induction fuel with
  | zero => intro cursor h; exact absurd h (Nat.not_lt_zero _)
  | succ n ih =>
    intro cursor h
    simp only [_delete_table_loop]
    by_cases hcur : cursor + REDIS_SCAN_BATCH_SIZE < (keysPattern s pre).length
    · have h1 : (_delete_entries s pre cursor).1 = cursor + REDIS_SCAN_BATCH_SIZE := by
        rw [_delete_entries_fst, if_pos hcur]
      have hne : ¬ (((_delete_entries s pre cursor).1 == 0) = true) := by
        rw [h1]; simp [REDIS_SCAN_BATCH_SIZE]
      rw [if_neg hne, h1, ih (cursor + REDIS_SCAN_BATCH_SIZE)
        (by simp only [REDIS_SCAN_BATCH_SIZE] at h hcur ⊢; omega)]
      rw [_delete_entries_snd, ← List.map_append]
      congr 1
      rw [← List.drop_drop]
      exact List.take_append_drop _ _
    · have h1 : (_delete_entries s pre cursor).1 = 0 := by
        rw [_delete_entries_fst, if_neg hcur]
      have heq : (((_delete_entries s pre cursor).1 == 0) = true) := by rw [h1]; rfl
      rw [if_pos heq, _delete_entries_snd]
      congr 1
      apply List.take_of_length_le
      rw [List.length_drop]
      omega

theorem keysPattern_length_le (s : Store) (pre : String) :
    (keysPattern s pre).length ≤ s.length := by
  rw [keysPattern]
  calc ((s.map Prod.fst).filter (fun k => strStartsWith pre k)).length
      ≤ (s.map Prod.fst).length := List.length_filter_le _ _
    _ = s.length := List.length_map _ _

theorem _delete_table_cmds (s : Store) (table : String) :
    _delete_table s table = (keysPattern s (tablePatOf table)).map RCmd.del := by
  rw [_delete_table]
  have hle := keysPattern_length_le s (tablePatOf table)
  rw [_delete_table_loop_pass s (tablePatOf table) (s.length + 1) 0 (by omega),
    List.drop_zero]

/-! ## The direct mod_config, pointwise (for claim C6) -/

theorem hgetall_mod_entry (st : Store) (t r : String) (fvs : Hash) (k : String) :
    hgetall (mod_entry st t r fvs) k
      = if k = encodeKey t r
        then (if fvs.isEmpty then [] else hmsetHash (hgetall st k) fvs)
        else hgetall st k := by
  by_cases hk : k = encodeKey t r
  · subst hk
    simp only [mod_entry]
    by_cases he : fvs.isEmpty = true
    · rw [if_pos he, hgetall_delKey]
      simp [he]
    · have he' : fvs.isEmpty = false := by simpa using he
      rw [if_neg he, hgetall_hmsetKey _ _ _ _ he']
      simp [he']
  · simp only [mod_entry]
    by_cases he : fvs.isEmpty = true
    · rw [if_pos he, hgetall_delKey, if_neg hk, if_neg hk]
    · have he' : fvs.isEmpty = false := by simpa using he
      rw [if_neg he, hgetall_hmsetKey _ _ _ _ he', if_neg hk, if_neg hk]

/-- Per flat key, the effect of one table's row writes, as the claim/spec
describe them (second, spec-following definition of refinement claim C6). -/
def rowsAction (tname : String) (rows : Table) (k : String) (h : Hash) : Hash :=
  rows.foldl (fun h' rp =>
    if k = encodeKey tname rp.1
    then (if rp.2.isEmpty then [] else hmsetHash h' rp.2)
    else h') h

/-- Per flat key, the effect of one snapshot table, as the claim/spec describe
it: an empty row-map deletes every matching key, otherwise the named rows are
hash-written (or their flat key deleted when the field map is empty). -/
def tableAction (tname : String) (rows : Table) (k : String) (h : Hash) : Hash :=
  if rows.isEmpty then (if strStartsWith (tablePatOf tname) k then [] else h)
  else rowsAction tname rows k h

/-- The spec-described final hash of flat key k after modConfig(data). -/
def modConfigSpecHash (data : Snapshot) (k : String) (h : Hash) : Hash :=
  data.foldl (fun h' td => tableAction td.1 td.2 k h') h

theorem hgetall_rows_fold (t : String) (rows : Table) :
    ∀ (st : Store) (k : String),
      hgetall (rows.foldl (fun st2 rp => mod_entry st2 t rp.1 rp.2) st) k
        = rowsAction t rows k (hgetall st k) := by
  induction rows with
  | nil => intro st k; rfl
  | cons rp rows ih =>
    intro st k
    rw [List.foldl_cons, ih, hgetall_mod_entry]
    rfl

theorem hgetall_mod_config (data : Snapshot) :
    ∀ (st : Store) (k : String),
      hgetall (mod_config st data) k = modConfigSpecHash data k (hgetall st k) := by
  induction data with
  | nil => intro st k; rfl
  | cons td rest ih =>
    intro st k
    have h1 : mod_config st (td :: rest)
        = mod_config (if td.2.isEmpty then delete_table st td.1
            else td.2.foldl (fun st2 rp => mod_entry st2 td.1 rp.1 rp.2) st) rest := by
      rw [mod_config, List.foldl_cons]; rfl
    have h2 : modConfigSpecHash (td :: rest) k (hgetall st k)
        = modConfigSpecHash rest k (tableAction td.1 td.2 k (hgetall st k)) := by
      rw [modConfigSpecHash, List.foldl_cons]; rfl
    rw [h1, ih, h2]
    congr 1
    by_cases he : td.2.isEmpty = true
    · rw [if_pos he, tableAction, if_pos he, hgetall_delete_table]
    · rw [if_neg he, tableAction, if_neg he, hgetall_rows_fold]

/-! ## String-prefix lemmas for table patterns (claim C6) -/

theorem toList_append (a b : String) : (a ++ b).toList = a.toList ++ b.toList := by
  obtain ⟨la⟩ := a
  obtain ⟨lb⟩ := b
  rfl

theorem listStartsWith_append_right (a b : List Char) :
    listStartsWith a (a ++ b) = true := by
  induction a with
  | nil => rfl
  | cons c a ih => simp [listStartsWith, ih]

theorem strStartsWith_append (p r : String) : strStartsWith p (p ++ r) = true := by
  rw [strStartsWith, toList_append]
  exact listStartsWith_append_right p.toList r.toList

theorem encodeKey_eq (t r : String) : encodeKey t r = tablePatOf t ++ r := rfl

theorem pat_pre_encode (t r : String) :
    strStartsWith (tablePatOf t) (encodeKey t r) = true := by
  rw [encodeKey_eq]
  exact strStartsWith_append _ _

theorem listStartsWith_nil_right (a : List Char)
    (h : listStartsWith a [] = true) : a = [] := by
  cases a with
  | nil => rfl
  | cons c a => exact absurd h (by simp [listStartsWith])

theorem listStartsWith_total (l : List Char) :
    ∀ a b : List Char, listStartsWith a l = true → listStartsWith b l = true →
      listStartsWith a b = true ∨ listStartsWith b a = true := by
  induction l with
  | nil =>
    intro a b ha hb
    rw [listStartsWith_nil_right a ha, listStartsWith_nil_right b hb]
    left; rfl
  | cons c l ih =>
    intro a b ha hb
    cases a with
    | nil => left; rfl
    | cons x xs =>
      cases b with
      | nil => right; rfl
      | cons y ys =>
        simp only [listStartsWith] at ha hb
        have hx := Bool.and_eq_true_iff.mp ha
        have hy := Bool.and_eq_true_iff.mp hb
        have hxc : x = c := by simpa using hx.1
        have hyc : y = c := by simpa using hy.1
        cases ih xs ys hx.2 hy.2 with
        | inl h => left; simp only [listStartsWith]; simp [hxc, hyc, h]
        | inr h => right; simp only [listStartsWith]; simp [hxc, hyc, h]

theorem sep_pat_eq :
    ∀ (u1 u2 : List Char), '|' ∉ u1 → '|' ∉ u2 →
      listStartsWith (u1 ++ ['|']) (u2 ++ ['|']) = true → u1 = u2 := by
  intro u1
  induction u1 with
  | nil =>
    intro u2 _ h2 h
    cases u2 with
    | nil => rfl
    | cons y ys =>
      simp only [List.nil_append, List.cons_append, listStartsWith] at h
      have hy : '|' = y := by simpa using (Bool.and_eq_true_iff.mp h).1
      exact absurd (by rw [← hy] at *; exact List.mem_cons_self _ _) h2
  | cons x xs ih =>
    intro u2 h1 h2 h
    cases u2 with
    | nil =>
      simp only [List.cons_append, List.nil_append, listStartsWith] at h
      have hsw := (Bool.and_eq_true_iff.mp h).2
      have hnil := listStartsWith_nil_right _ hsw
      simp at hnil
    | cons y ys =>
      simp only [List.cons_append, listStartsWith] at h
      have hxy : x = y := by simpa using (Bool.and_eq_true_iff.mp h).1
      have hrest := (Bool.and_eq_true_iff.mp h).2
      have h1' : '|' ∉ xs := fun hm => h1 (List.mem_cons_of_mem _ hm)
      have h2' : '|' ∉ ys := fun hm => h2 (List.mem_cons_of_mem _ hm)
      rw [hxy, ih ys h1' h2' hrest]

/-- The table names of the amended claim C6: no separator after uppercasing. -/
def sepFreeUpper (t : String) : Bool := (to_upper t).toList.all (fun c => c != '|')

theorem not_mem_of_sepFreeUpper (t : String) (h : sepFreeUpper t = true) :
    '|' ∉ (to_upper t).toList := by
  intro hm
  have := List.all_eq_true.mp h _ hm
  simp at this

theorem tablePatOf_toList (t : String) :
    (tablePatOf t).toList = (to_upper t).toList ++ ['|'] := by
  rw [tablePatOf, toList_append]
  rfl

theorem upper_eq_of_both_pre (t1 t2 k : String)
    (h1 : sepFreeUpper t1 = true) (h2 : sepFreeUpper t2 = true)
    (p1 : strStartsWith (tablePatOf t1) k = true)
    (p2 : strStartsWith (tablePatOf t2) k = true) :
    to_upper t1 = to_upper t2 := by
  rw [strStartsWith, tablePatOf_toList] at p1 p2
  have hm1 := not_mem_of_sepFreeUpper t1 h1
  have hm2 := not_mem_of_sepFreeUpper t2 h2
  cases listStartsWith_total k.toList _ _ p1 p2 with
  | inl h =>
    have hu := sep_pat_eq (to_upper t1).toList (to_upper t2).toList hm1 hm2 h
    exact congrArg String.mk hu
  | inr h =>
    have hu := sep_pat_eq (to_upper t2).toList (to_upper t1).toList hm2 hm1 h
    exact (congrArg String.mk hu).symm

/-! ## The pipelined mod_config as blocks of commands (claim C6) -/

/-- The commands one snapshot table contributes to the transaction. -/
def tableCmds (s : Store) (td : String × Table) : List RCmd :=
  if td.2.isEmpty then _delete_table s td.1
  else td.2.map (fun rp => _mod_entry td.1 rp.1 rp.2)

/-- All commands Pipe.mod_config enqueues, in order. -/
def blocks (s : Store) (data : Snapshot) : List RCmd :=
  data.foldl (fun cs td => cs ++ tableCmds s td) []

theorem rows_cmds_append (t : String) (rows : Table) :
    ∀ cs : List RCmd,
      rows.foldl (fun cs2 rp => cs2 ++ [_mod_entry t rp.1 rp.2]) cs
        = cs ++ rows.map (fun rp => _mod_entry t rp.1 rp.2) := by
  induction rows with
  | nil => intro cs; simp
  | cons rp rows ih =>
    intro cs
    rw [List.foldl_cons, ih, List.map_cons]
    simp

theorem blocks_from (s : Store) (data : Snapshot) :
    ∀ a : List RCmd,
      data.foldl (fun cs td => cs ++ tableCmds s td) a = a ++ blocks s data := by
  induction data with
  | nil => intro a; simp [blocks]
  | cons td rest ih =>
    intro a
    rw [List.foldl_cons, ih (a ++ tableCmds s td)]
    have h2 : blocks s (td :: rest) = tableCmds s td ++ blocks s rest := by
      rw [blocks, List.foldl_cons, ih ([] ++ tableCmds s td)]
      simp
    rw [h2, List.append_assoc]

theorem blocks_cons (s : Store) (td : String × Table) (rest : Snapshot) :
    blocks s (td :: rest) = tableCmds s td ++ blocks s rest := by
  rw [blocks, List.foldl_cons, blocks_from]
  simp

theorem pipe_mod_config_blocks (s : Store) (data : Snapshot) :
    Pipe.mod_config s data = execCmds s (blocks s data) := by
  simp only [Pipe.mod_config]
  congr 1
  have hstep : (fun (cs : List RCmd) (td : String × Table) =>
      if td.2.isEmpty then cs ++ _delete_table s td.1
      else td.2.foldl (fun cs2 rp => cs2 ++ [_mod_entry td.1 rp.1 rp.2]) cs)
      = fun cs td => cs ++ tableCmds s td := by
    funext cs td
    rw [tableCmds]
    by_cases he : td.2.isEmpty = true
    · rw [if_pos he, if_pos he]
    · rw [if_neg he, if_neg he, rows_cmds_append]
  rw [hstep, blocks]

theorem hgetall_execCmds_rowBlock (t : String) (rows : Table) (st : Store) (k : String) :
    hgetall (execCmds st (rows.map (fun rp => _mod_entry t rp.1 rp.2))) k
      = rowsAction t rows k (hgetall st k) := by
  have h : execCmds st (rows.map (fun rp => _mod_entry t rp.1 rp.2))
      = rows.foldl (fun st2 rp => mod_entry st2 t rp.1 rp.2) st := by
    rw [execCmds, List.foldl_map]
    congr 1
    funext st2 rp
    exact execCmd_mod_entry st2 t rp.1 rp.2
  rw [h, hgetall_rows_fold]

theorem tableCmds_key_pre (s : Store) (td : String × Table) (c : RCmd)
    (hc : c ∈ tableCmds s td) :
    strStartsWith (tablePatOf td.1) (cmdKey c) = true := by
  rw [tableCmds] at hc
  by_cases he : td.2.isEmpty = true
  · rw [if_pos he, _delete_table_cmds] at hc
    obtain ⟨key, hkey, rfl⟩ := List.mem_map.mp hc
    exact ((mem_keysPattern s _ key).mp hkey).2
  · rw [if_neg he] at hc
    obtain ⟨rp, _, rfl⟩ := List.mem_map.mp hc
    have hk : cmdKey (_mod_entry td.1 rp.1 rp.2) = encodeKey td.1 rp.1 := by
      rw [_mod_entry]
      by_cases h2 : rp.2.isEmpty = true
      · rw [if_pos h2, cmdKey]
      · rw [if_neg h2, cmdKey]
    rw [hk]
    exact pat_pre_encode td.1 rp.1

theorem hgetall_tableCmds (s st : Store) (td : String × Table) (k : String)
    (hinv : strStartsWith (tablePatOf td.1) k = true → hgetall st k = hgetall s k) :
    hgetall (execCmds st (tableCmds s td)) k = tableAction td.1 td.2 k (hgetall st k) := by
  rw [tableCmds, tableAction]
  by_cases he : td.2.isEmpty = true
  · rw [if_pos he, if_pos he, _delete_table_cmds, hgetall_execCmds_delList]
    by_cases hk : strStartsWith (tablePatOf td.1) k = true
    · rw [if_pos hk]
      by_cases hmem : k ∈ keysPattern s (tablePatOf td.1)
      · rw [if_pos hmem]
      · rw [if_neg hmem, hinv hk]
        exact hgetall_eq_nil_of_not_mem s k
          (fun hm => hmem ((mem_keysPattern s _ k).mpr ⟨hm, hk⟩))
    · have hmem : k ∉ keysPattern s (tablePatOf td.1) := fun hm =>
        hk ((mem_keysPattern s _ k).mp hm).2
      rw [if_neg hmem, if_neg hk]
  · rw [if_neg he, if_neg he, hgetall_execCmds_rowBlock]

theorem rowsAction_id (t : String) (rows : Table) (k : String)
    (hpk : ¬ strStartsWith (tablePatOf t) k = true) :
    ∀ h : Hash, rowsAction t rows k h = h := by
  induction rows with
  | nil => intro h; rfl
  | cons rp rows ih =>
    intro h
    rw [rowsAction, List.foldl_cons]
    have hne : ¬ k = encodeKey t rp.1 := fun hc => hpk (hc ▸ pat_pre_encode t rp.1)
    rw [if_neg hne]
    exact ih h

theorem tableAction_id (t : String) (rows : Table) (k : String) (h : Hash)
    (hpk : ¬ strStartsWith (tablePatOf t) k = true) :
    tableAction t rows k h = h := by
  rw [tableAction]
  by_cases he : rows.isEmpty = true
  · rw [if_pos he, if_neg hpk]
  · rw [if_neg he]
    exact rowsAction_id t rows k hpk h

theorem modConfigSpecHash_id (data : Snapshot) (k : String)
    (hall : ∀ td ∈ data, ¬ strStartsWith (tablePatOf td.1) k = true) :
    ∀ h : Hash, modConfigSpecHash data k h = h := by
  induction data with
  | nil => intro h; rfl
  | cons td rest ih =>
    intro h
    rw [modConfigSpecHash, List.foldl_cons,
      tableAction_id td.1 td.2 k h (hall td (List.mem_cons_self _ _))]
    exact ih (fun td' h' => hall td' (List.mem_cons_of_mem _ h')) h

theorem mem_blocks (s : Store) (data : Snapshot) (c : RCmd) :
    c ∈ blocks s data → ∃ td ∈ data, c ∈ tableCmds s td := by
  induction data with
  | nil => intro h; simp [blocks] at h
  | cons td rest ih =>
    intro h
    rw [blocks_cons] at h
    cases List.mem_append.mp h with
    | inl h1 => exact ⟨td, List.mem_cons_self _ _, h1⟩
    | inr h2 =>
      obtain ⟨td', hm, hc⟩ := ih h2
      exact ⟨td', List.mem_cons_of_mem _ hm, hc⟩

theorem hgetall_pipe_blocks (s : Store) (data : Snapshot) :
    ∀ (st : Store) (k : String),
      (∀ td ∈ data, sepFreeUpper td.1 = true) →
      ((data.map (fun td => to_upper td.1)).Nodup) →
      (∀ td ∈ data, strStartsWith (tablePatOf td.1) k = true →
        hgetall st k = hgetall s k) →
      hgetall (execCmds st (blocks s data)) k
        = modConfigSpecHash data k (hgetall st k) := by
  induction data with
  | nil => intro st k _ _ _; rfl
  | cons td rest ih =>
    intro st k hfree hdis hinv
    rw [blocks_cons, execCmds_append]
    have hfree' : ∀ td' ∈ rest, sepFreeUpper td'.1 = true :=
      fun td' h' => hfree td' (List.mem_cons_of_mem _ h')
    rw [List.map_cons] at hdis
    have hdis' : (rest.map (fun td => to_upper td.1)).Nodup :=
      (List.nodup_cons.mp hdis).2
    have hheadne : ∀ td' ∈ rest, ¬ to_upper td'.1 = to_upper td.1 := by
      intro td' h' hc
      exact (List.nodup_cons.mp hdis).1 (List.mem_map.mpr ⟨td', h', hc⟩)
    have h2 : modConfigSpecHash (td :: rest) k (hgetall st k)
        = modConfigSpecHash rest k (tableAction td.1 td.2 k (hgetall st k)) := by
      rw [modConfigSpecHash, List.foldl_cons]; rfl
    by_cases hpk : strStartsWith (tablePatOf td.1) k = true
    · have hframe : ∀ c ∈ blocks s rest, ¬ cmdKey c = k := by
        intro c hc hck
        obtain ⟨td', hm', hcm⟩ := mem_blocks s rest c hc
        have hp' := tableCmds_key_pre s td' c hcm
        rw [hck] at hp'
        exact hheadne td' hm'
          (upper_eq_of_both_pre td'.1 td.1 k (hfree' td' hm')
            (hfree td (List.mem_cons_self _ _)) hp' hpk)
      rw [hgetall_execCmds_frame _ _ _ hframe,
        hgetall_tableCmds s st td k (fun _ => hinv td (List.mem_cons_self _ _) hpk)]
      have hrestid : ∀ td' ∈ rest, ¬ strStartsWith (tablePatOf td'.1) k = true := by
        intro td' hm' hp'
        exact hheadne td' hm'
          (upper_eq_of_both_pre td'.1 td.1 k (hfree' td' hm')
            (hfree td (List.mem_cons_self _ _)) hp' hpk)
      rw [h2, modConfigSpecHash_id rest k hrestid]
    · have hframe : ∀ c ∈ tableCmds s td, ¬ cmdKey c = k := by
        intro c hc hck
        have hp' := tableCmds_key_pre s td c hc
        rw [hck] at hp'
        exact hpk hp'
      have hB : hgetall (execCmds st (tableCmds s td)) k = hgetall st k :=
        hgetall_execCmds_frame _ _ _ hframe
      have hinv' : ∀ td' ∈ rest, strStartsWith (tablePatOf td'.1) k = true →
          hgetall (execCmds st (tableCmds s td)) k = hgetall s k := by
        intro td' hm' hp'
        rw [hB]
        exact hinv td' (List.mem_cons_of_mem _ hm') hp'
      rw [ih (execCmds st (tableCmds s td)) k hfree' hdis' hinv', hB, h2,
        tableAction_id td.1 td.2 k _ hpk]

/-! ## Claim C6 (amended) — pipe/direct mod_config equivalence -/

/-- Claim C6 as amended: for every initial store and every snapshot whose
table names, after uppercasing, contain no separator and are pairwise
distinct, ConfigDBPipeConnector::mod_config leaves every flat key with the
same stored hash as ConfigDBConnector::mod_config, and both match the
claim's per-table description (modConfigSpecHash): tables with empty
row-maps have all matching keys deleted, named rows are hash-written or
(empty field map) deleted, all other keys untouched. -/
theorem c6_amended_pipe_mod_config_refines_direct (s : Store) (data : Snapshot)
    (hfree : ∀ td ∈ data, sepFreeUpper td.1 = true)
    (hdis : (data.map (fun td => to_upper td.1)).Nodup) (k : String) :
    hgetall (Pipe.mod_config s data) k = hgetall (mod_config s data) k ∧
    hgetall (mod_config s data) k = modConfigSpecHash data k (hgetall s k) := by
  have hd := hgetall_mod_config data s k
  have hp := hgetall_pipe_blocks s data s k hfree hdis (fun _ _ _ => rfl)
  rw [pipe_mod_config_blocks]
  exact ⟨by rw [hp, hd], hd⟩

/-- Witness for the amended claim C6 at a concrete input: one separator-free
table written over a one-key store; the pipelined and the direct mod_config
agree on the written key. -/
theorem c6_amended_witness :
    ((∀ td ∈ ([("T", [("r", [("f", "v")])])] : Snapshot), sepFreeUpper td.1 = true) ∧
      ((([("T", [("r", [("f", "v")])])] : Snapshot).map
        (fun td => to_upper td.1)).Nodup)) ∧
    hgetall (Pipe.mod_config [("T|old", [("o", "1")])]
        [("T", [("r", [("f", "v")])])]) "T|r"
      = hgetall (mod_config [("T|old", [("o", "1")])]
        [("T", [("r", [("f", "v")])])]) "T|r" :=
  ⟨⟨by decide, by decide⟩,
   (c6_amended_pipe_mod_config_refines_direct
      [("T|old", [("o", "1")])] [("T", [("r", [("f", "v")])])]
      (by decide) (by decide) "T|r").1⟩

/-! ## Claim C10 — read operations leave the store unchanged -/

/-- The cursor loop of the pipelined get_config threads the store through
unchanged: every command it issues (SCAN, HGETALL) is a read. -/
theorem get_config_loop_store (fuel : Nat) :
    ∀ (cursor : Nat) (data : Snapshot) (s : Store),
      (get_config_loop fuel cursor data s).2 = s := by
  induction fuel with
  | zero => intro cursor data s; rfl
  | succ n ih =>
    intro cursor data s
    simp only [get_config_loop, _get_config]
    split
    · rfl
    · exact ih _ _ _

/-- Claim C10: get_entry, get_keys, get_table and get_config (direct and
pipelined) issue only read commands (HGETALL, KEYS, SCAN): for every input
and store state, the store after the call equals the store before it. -/
theorem c10_read_operations_preserve_store (s : Store) (table key : String) (sp : Bool) :
    (get_entry s table key).2 = s ∧ (get_keys s table sp).2 = s ∧
    (get_table s table).2 = s ∧ (get_config s).2 = s ∧ (Pipe.get_config s).2 = s :=
  ⟨rfl, rfl, rfl, rfl, get_config_loop_store _ _ _ _⟩

/-! ## ReadinessGate — db_connect with wait_for_init (claim C8) -/

/-- One message delivered by pubsub->listen_message(); only the fields
db_connect reads (item["type"], item["channel"]). -/
structure PubSubItem where
  itemType : String
  channel : String
  deriving DecidableEq

/-- The key decoded from a keyspace-notification channel (configdb.cpp:38-44):
everything after the FIRST ':'; the empty string when the channel has none. -/
def channelKey (channel : String) : String :=
  match channel.toList.findIdx? (· == ':') with
  | none => ""
  | some pos => strDrop channel (pos + 1)

/-- `initialized && !initialized->empty()` for a value returned by
client.get(INIT_INDICATOR). -/
def valueReady : Option String → Bool
  | none => false
  | some v => !(v == "")

/-- One listen-loop iteration's break condition (configdb.cpp:36-51): the loop
breaks on a "pmessage" item whose decoded channel key equals INIT_INDICATOR
and whose re-read of the sentinel finds a non-empty value.  Each trace element
pairs the delivered item with the value client.get(INIT_INDICATOR) would
return at that re-check. -/
def eventTriggers (e : PubSubItem × Option String) : Bool :=
  e.1.itemType == "pmessage" && channelKey e.1.channel == INIT_INDICATOR && valueReady e.2

/-- The `for (;;)` listen loop (configdb.cpp:33-54) run against a finite
prefix of the delivered messages: `some i` when the loop breaks at the i-th
message, `none` when the whole prefix keeps it listening. -/
def listenLoop : List (PubSubItem × Option String) → Option Nat
  | [] => none
  | e :: rest => if eventTriggers e then some 0 else (listenLoop rest).map (· + 1)

/-- ConfigDBConnector::db_connect with wait_for_init = true (configdb.cpp:24-57):
given the initial client.get(INIT_INDICATOR) and the message trace, `true` iff
the call returns (immediately, or by breaking out of the listen loop within
the trace). -/
def db_connect_wait (initial : Option String)
    (events : List (PubSubItem × Option String)) : Bool :=
  if valueReady initial then true else (listenLoop events).isSome

theorem listenLoop_isSome (events : List (PubSubItem × Option String)) :
    (listenLoop events).isSome = events.any eventTriggers := by
  induction events with
  | nil => rfl
  | cons e rest ih =>
    simp only [listenLoop, List.any_cons]
    by_cases h : eventTriggers e = true
    · simp [h]
    · simp only [Bool.not_eq_true] at h
      simp [h, ih]

theorem listenLoop_cons (e : PubSubItem × Option String)
    (rest : List (PubSubItem × Option String)) :
    listenLoop (e :: rest)
      = if eventTriggers e then some 0 else (listenLoop rest).map (· + 1) := rfl

theorem listenLoop_first (events : List (PubSubItem × Option String)) :
    ∀ i, listenLoop events = some i →
      ∃ h : i < events.length,
        eventTriggers (events.get ⟨i, h⟩) = true ∧
        (events.take i).all (fun e => !eventTriggers e) = true := by
  induction events with
  | nil => intro i h; simp [listenLoop] at h
  | cons e rest ih =>
    intro i h
    by_cases ht : eventTriggers e = true
    · rw [listenLoop_cons, if_pos ht] at h
      cases h
      exact ⟨Nat.succ_pos _, ht, rfl⟩
    · rw [listenLoop_cons, if_neg ht, Option.map_eq_some'] at h
      obtain ⟨j, hj, rfl⟩ := h
      obtain ⟨hlt, htr, hall⟩ := ih j hj
      refine ⟨Nat.succ_lt_succ hlt, htr, ?_⟩
      simp only [List.take_succ_cons, List.all_cons, hall, Bool.and_true]
      simp [ht]

/-- Claim C8: db_connect with wait_for_init = true returns only in a state
where the sentinel was (re-)read non-empty: it returns immediately when the
initial read is non-empty; otherwise it returns exactly when some trace event
is a pmessage whose decoded channel key equals INIT_INDICATOR and whose
re-check reads a non-empty value; and the listen loop breaks at the FIRST
such event — all earlier events (other keys, non-pmessage items, or empty
re-checks) keep it listening. -/
theorem c8_db_connect_wait_for_init (initial : Option String)
    (events : List (PubSubItem × Option String)) :
    (valueReady initial = true → db_connect_wait initial events = true) ∧
    (valueReady initial = false →
      (db_connect_wait initial events = true ↔ events.any eventTriggers = true)) ∧
    (∀ i, listenLoop events = some i →
      ∃ h : i < events.length,
        eventTriggers (events.get ⟨i, h⟩) = true ∧
        (events.take i).all (fun e => !eventTriggers e) = true) := by
  refine ⟨fun h => by simp [db_connect_wait, h], fun h => ?_, listenLoop_first events⟩
  simp [db_connect_wait, h, listenLoop_isSome]

/-- Witness for claim C8 at concrete inputs: an already-initialized store
makes db_connect return immediately; on an uninitialized store, a trace with
a foreign-key event followed by a matching pmessage with non-empty re-check
makes it return, and the loop breaks at index 1, the first triggering event. -/
theorem c8_db_connect_wait_for_init_witness :
    (db_connect_wait (some "1") [] = true) ∧
    (db_connect_wait none
        [(⟨"pmessage", "__keyspace@4__:OTHER_KEY"⟩, some "1"),
         (⟨"pmessage", "__keyspace@4__:CONFIG_DB_INITIALIZED"⟩, some "1")] = true ↔
      List.any
        [(⟨"pmessage", "__keyspace@4__:OTHER_KEY"⟩, some "1"),
         (⟨"pmessage", "__keyspace@4__:CONFIG_DB_INITIALIZED"⟩, some "1")]
        eventTriggers = true) ∧
    (∃ h : 1 < List.length
        [((⟨"pmessage", "__keyspace@4__:OTHER_KEY"⟩ : PubSubItem), some "1"),
         (⟨"pmessage", "__keyspace@4__:CONFIG_DB_INITIALIZED"⟩, some "1")],
      eventTriggers (List.get
        [((⟨"pmessage", "__keyspace@4__:OTHER_KEY"⟩ : PubSubItem), some "1"),
         (⟨"pmessage", "__keyspace@4__:CONFIG_DB_INITIALIZED"⟩, some "1")] ⟨1, h⟩) = true ∧
      (List.take 1
        [((⟨"pmessage", "__keyspace@4__:OTHER_KEY"⟩ : PubSubItem), some "1"),
         (⟨"pmessage", "__keyspace@4__:CONFIG_DB_INITIALIZED"⟩, some "1")]).all
        (fun e => !eventTriggers e) = true) :=
  ⟨(c8_db_connect_wait_for_init (some "1") []).1 (by decide),
   (c8_db_connect_wait_for_init none _).2.1 (by decide),
   (c8_db_connect_wait_for_init none _).2.2 1 (by decide)⟩

end ConfigDB
